import Mathlib

/-!
Verification of the pdf-triage-service core: the triage scoring engine
(`keyword_bank.py`), the recommendation policy (`main.py`), the extraction
backends' failure handling (`extraction.py`), and the extraction
orchestrator's dispatch logic (`main.py`).

Texts are modelled as `List Char` (ASCII fragment of Python's Unicode
string semantics: `\w` is `[A-Za-z0-9_]`, `\s` is ASCII whitespace).
Floating-point arithmetic of the score is idealised over `ℝ`, with
`round(x, 4)` modelled as exact rounding of `x * 10000` to the nearest
integer.  All other code is embedded as computable functions.
-/

namespace Triage

/-- ASCII model of the regex class `\s` used by `re.sub(r'\s+', ' ')` and
by Python's `str.strip()`. -/
def pyIsSpace (c : Char) : Bool :=
  c = ' ' || c = '\t' || c = '\n' || c = '\r' || c.toNat = 11 || c.toNat = 12

/-- ASCII model of the regex class `\w` (alphanumeric or underscore). -/
def pyIsWord (c : Char) : Bool :=
  c.isAlphanum || c = '_'

/-- One character of `text.lower()` followed by `re.sub(r'[^\w\s]', ' ', text)`:
lowercase, then replace anything that is neither a word character nor
whitespace by a space. -/
def lowerClean (c : Char) : Char :=
  let l := c.toLower
  if pyIsWord l || pyIsSpace l then l else ' '

/-- `re.sub(r'\s+', ' ', text)`: every maximal run of whitespace becomes a
single space. -/
def collapseWS : List Char → List Char
  | [] => []
  | [c] => if pyIsSpace c then [' '] else [c]
  | c :: d :: rest =>
    if pyIsSpace c && pyIsSpace d then collapseWS (d :: rest)
    else (if pyIsSpace c then ' ' else c) :: collapseWS (d :: rest)

/-- Remove trailing whitespace characters. -/
def dropTrailing : List Char → List Char
  | [] => []
  | c :: cs =>
    let r := dropTrailing cs
    if r = [] then (if pyIsSpace c then [] else [c]) else c :: r

/-- Python `str.strip()`: remove leading and trailing whitespace. -/
def pyStrip (l : List Char) : List Char :=
  dropTrailing (l.dropWhile pyIsSpace)

/-- `normalize_text` from `keyword_bank.py`: lowercase, strip punctuation
(keep alphanumeric and spaces), collapse whitespace, trim the edges. -/
def normalize_text (l : List Char) : List Char :=
  pyStrip (collapseWS (l.map lowerClean))

/-- Split a text into its maximal runs of non-whitespace characters,
dropping all whitespace (specification-side helper). -/
def wordsOf : List Char → List (List Char)
  | [] => []
  | c :: cs =>
    if pyIsSpace c then wordsOf cs
    else
      match cs, wordsOf cs with
      | [], _ => [[c]]
      | d :: _, ws =>
        if pyIsSpace d then [c] :: ws
        else
          match ws with
          | [] => [[c]]
          | w :: ws1 => (c :: w) :: ws1

/-- Join words with single spaces (specification-side helper). -/
def joinWords : List (List Char) → List Char
  | [] => []
  | w :: ws =>
    match ws with
    | [] => w
    | _ :: _ => w ++ ' ' :: joinWords ws

/-- Specification-side restatement of `normalize_text` under the amended
reading of §4.1: lowercase and clean each character — keeping the
underscore, which the source's `\w` class treats as a word character —
then re-assemble the maximal non-whitespace runs separated by single
spaces with no leading or trailing space.  To be proved equal to the
source-side definition. -/
def normalizeSpec (l : List Char) : List Char :=
  joinWords (wordsOf (l.map lowerClean))

/-- One character of the normalization as the spec's words literally
describe it: lowercase, then replace every character that is neither
alphanumeric nor whitespace — the underscore included — by a space. -/
def claimClean (c : Char) : Char :=
  let l := c.toLower
  if l.isAlphanum || pyIsSpace l then l else ' '

/-- The normalization the claim describes word for word: lowercase,
replace every non-alphanumeric non-whitespace character (including the
underscore) by a space, collapse whitespace runs, trim the edges. -/
def normalizeClaim (l : List Char) : List Char :=
  pyStrip (collapseWS (l.map claimClean))

/-- Whether position `i` of `t` holds a word character (`false` past the
end, matching the regex view of positions outside the string). -/
def wordAt (t : List Char) (i : ℕ) : Bool :=
  pyIsWord (t.getD i ' ')

/-- The regex `\b` (word boundary) holds at position `i` of `t`. -/
def boundaryAt (t : List Char) (i : ℕ) : Bool :=
  (if i = 0 then false else wordAt t (i - 1)) != wordAt t i

/-- The literal phrase `p`, wrapped in `\b ... \b`, matches `t` at
position `i`. -/
def matchAt (t p : List Char) (i : ℕ) : Bool :=
  decide ((t.drop i).take p.length = p) && boundaryAt t i
    && boundaryAt t (i + p.length)

/-- Left-to-right scan of `re.findall`: count non-overlapping matches,
resuming after the end of each match. -/
def countMatchesAux (t p : List Char) : ℕ → ℕ → ℕ
  | 0, _ => 0
  | fuel + 1, i =>
    if i > t.length then 0
    else if matchAt t p i then 1 + countMatchesAux t p fuel (i + max 1 p.length)
    else countMatchesAux t p fuel (i + 1)

/-- `len(re.findall(r'\b' + re.escape(p) + r'\b', t))` for a literal
phrase `p`. -/
def countMatches (t p : List Char) : ℕ :=
  countMatchesAux t p (t.length + 1) 0

/-- A keyword bank: ordered association list from category name to the
ordered list of keyword phrases, mirroring a Python `dict`. -/
abbrev Bank := List (String × List String)

/-- Occurrence count of one keyword of the bank in the normalized text
(`re.findall(r'\b' + re.escape(kw.lower()) + r'\b', normalized)`). -/
def kwCount (normalized : List Char) (kw : String) : ℕ :=
  countMatches normalized (kw.data.map Char.toLower)

/-- The mutable state of the scoring loop of `score_page`: the running
hit count, matched-keyword list, and matched-category set. -/
structure ScanState where
  hits : ℕ
  matched_keywords : List String
  matched_categories : List String
deriving DecidableEq, Repr

/-- `matched_categories.add(category)` on the set of matched categories,
modelled as ordered insertion without duplication. -/
def addCat (cats : List String) (c : String) : List String :=
  if c ∈ cats then cats else cats ++ [c]

/-- One iteration of the inner keyword loop of `score_page`: count the
keyword's occurrences and, if positive, accumulate the hits and record
the keyword and its category. -/
def scanKeyword (normalized : List Char) (category : String)
    (st : ScanState) (kw : String) : ScanState :=
  let count := kwCount normalized kw
  if 0 < count then
    ⟨st.hits + count, st.matched_keywords ++ [kw],
      addCat st.matched_categories category⟩
  else st

/-- The full category/keyword double loop of `score_page`
(`if disabled_categories and category in disabled_categories: continue`). -/
def scanBank (normalized : List Char) (bank : Bank)
    (disabled : List String) : ScanState :=
  bank.foldl
    (fun st ck =>
      if disabled ≠ [] ∧ ck.1 ∈ disabled then st
      else ck.2.foldl (scanKeyword normalized ck.1) st)
    ⟨0, [], []⟩

/-- The record returned by `score_page`, with the numeric score kept as
the pair (hit count, normalized text length) from which the float score
is computed; see `scoreFormula`. -/
structure PageScore where
  classification : String
  hits : ℕ
  textLength : ℕ
  matched_keywords : List String
  matched_categories : List String
  snippet : List Char
deriving DecidableEq, Repr

/-- `score_page` from `keyword_bank.py`. -/
def score_page (text : List Char) (bank : Bank)
    (disabled : List String) : PageScore :=
  if text = [] ∨ (pyStrip text).length < 50 then
    ⟨"drawing", 0, 0, [], [], []⟩
  else
    let normalized := normalize_text text
    let st := scanBank normalized bank disabled
    ⟨"text", st.hits, normalized.length, st.matched_keywords,
      st.matched_categories,
      ((pyStrip text).take 200).map (fun c => if c = '\n' then ' ' else c)⟩

/-- Python's `round(x, 4)`, idealised over the reals. -/
noncomputable def round4 (x : ℝ) : ℝ :=
  (round (x * 10000) : ℝ) / 10000

/-- The score value `round(hits / math.sqrt(text_length) if text_length > 0
else 0.0, 4)` as a function of the hit count and normalized length. -/
noncomputable def scoreFormula (hits len : ℕ) : ℝ :=
  round4 (if len = 0 then 0 else (hits : ℝ) / Real.sqrt len)

/-- The `score` field of the dictionary returned by `score_page`
(`0.0` on the drawing branch, which the formula also yields since the
drawing branch stores zero hits and zero length). -/
noncomputable def PageScore.score (ps : PageScore) : ℝ :=
  scoreFormula ps.hits ps.textLength

/-- Modelled from the spec (§4.2): the categories of the bank that are not
disabled. -/
def enabledBank (bank : Bank) (disabled : List String) : Bank :=
  bank.filter (fun ck => decide (ck.1 ∉ disabled))

/-- Modelled from the spec (§4.2): the total hit count is the sum, over
every enabled category and every keyword phrase in it, of that phrase's
whole-phrase occurrence count in the normalized text. -/
def totalHits (normalized : List Char) (bank : Bank)
    (disabled : List String) : ℕ :=
  ((enabledBank bank disabled).map
    (fun ck => (ck.2.map (kwCount normalized)).sum)).sum

/-- Modelled from the spec (§4.2): each enabled category contributes each
of its keywords having at least one hit, once, in bank order. -/
def matchedKeywordsSpec (normalized : List Char) (bank : Bank)
    (disabled : List String) : List String :=
  ((enabledBank bank disabled).map
    (fun ck => ck.2.filter (fun kw => decide (0 < kwCount normalized kw)))).flatten

/-- `get_recommendation` from `main.py` (scores idealised as rationals,
`0.3` as `3 / 10`). -/
def get_recommendation (score : ℚ) (classification : String) : String :=
  if classification = "drawing" then "review"
  else if 3 / 10 ≤ score then "keep"
  else if 0 < score then "maybe"
  else "discard"

/-- The static `KEYWORD_BANK` of `keyword_bank.py`. -/
def KEYWORD_BANK : Bank := [
  ("display_hardware", [
    "led display", "led screen", "led wall", "video display", "video wall",
    "video board", "scoreboard", "ribbon board", "fascia", "marquee",
    "digital signage", "display system", "led module", "led panel",
    "led tile", "led cabinet", "direct view led", "dvled", "fine pitch",
    "narrow pixel pitch", "smd led", "cob led", "micro led",
    "transparent led", "flexible led", "curved display", "outdoor led",
    "indoor led", "led mesh", "led curtain", "led strip", "pixel board"
  ]),
  ("specs", [
    "pixel pitch", "pixel density", "resolution", "brightness", "nit",
    "candela", "contrast ratio", "refresh rate", "viewing angle",
    "viewing distance", "color depth", "bit depth", "grayscale", "gamut",
    "hdr", "ip rating", "ip65", "ip54", "ingress protection",
    "operating temperature", "power consumption", "wattage", "btu",
    "weight per panel", "panel dimension", "module size", "cabinet size",
    "aspect ratio", "scan rate", "uniformity", "mtbf",
    "mean time between failure", "lifespan", "lifecycle", "luminance",
    "chromaticity"
  ]),
  ("electrical", [
    "electrical", "power distribution", "power supply", "pdu",
    "circuit breaker", "amperage", "voltage", "120v", "208v", "240v",
    "480v", "single phase", "three phase", "conduit", "wire gauge", "awg",
    "junction box", "disconnect", "transformer", "ups", "uninterruptible",
    "backup power", "generator", "ground fault", "gfci", "arc fault", "nec",
    "electrical code", "load calculation", "demand factor", "cat5", "cat6",
    "cat6a", "fiber optic", "data cable", "ethernet", "network switch",
    "patch panel", "data drop", "data count", "fiber strand", "single mode",
    "multi mode", "hdmi", "sdi", "displayport", "dvi",
    "signal distribution", "video processor", "scaler", "switcher",
    "media player", "content management", "cms", "controller",
    "receiving card", "sending card"
  ]),
  ("structural", [
    "structural", "steel", "mounting", "bracket", "cleat", "z-clip",
    "unistrut", "framing", "sub-structure", "substrate", "rigging",
    "flyware", "truss", "hoist", "motor", "chain hoist", "load bearing",
    "dead load", "live load", "wind load", "seismic", "anchorage",
    "anchor bolt", "concrete embed", "welding", "galvanized", "powder coat",
    "stainless", "aluminum extrusion", "pe stamp", "structural engineer",
    "structural calculation", "deflection", "moment", "shear",
    "bearing plate", "base plate", "column", "beam", "cantilever",
    "outrigger"
  ]),
  ("installation", [
    "installation", "install", "labor", "man hours", "crew", "mobilization",
    "demobilization", "scaffolding", "lift", "boom lift", "scissor lift",
    "crane", "aerial work platform", "safety harness", "fall protection",
    "osha", "ppe", "commissioning", "testing", "alignment", "calibration",
    "training", "warranty", "maintenance", "service agreement",
    "preventive maintenance", "spare parts", "on-site support",
    "remote support", "noc", "network operations", "punch list",
    "substantial completion", "final completion",
    "certificate of occupancy", "closeout", "as-built", "shop drawing",
    "submittal"
  ]),
  ("control_data", [
    "control system", "control room", "noc", "network operations center",
    "content management", "cms", "scheduling software", "playlist",
    "novastar", "brompton", "colorlight", "dbstar", "video processor",
    "scaler", "switcher", "matrix switcher", "media server", "brightsign",
    "crestron", "extron", "dante", "artnet", "dmx", "rs232", "rs485",
    "tcp ip", "api integration", "remote monitoring", "snmp", "redundancy",
    "failover", "backup system"
  ]),
  ("permits_logistics", [
    "permit", "building permit", "electrical permit", "inspection",
    "code compliance", "building code", "fire code", "ada", "accessibility",
    "zoning", "variance", "hoa", "shipping", "freight", "crating",
    "packaging", "customs", "import", "tariff", "duty", "bonded warehouse",
    "staging", "laydown area", "storage", "receiving dock",
    "delivery schedule", "lead time", "manufacturing time",
    "production schedule"
  ]),
  ("commercial", [
    "bid form", "bid bond", "performance bond", "payment bond", "surety",
    "insurance", "certificate of insurance", "coi", "indemnification",
    "liability", "liquidated damages", "retainage", "retention",
    "change order", "rfi", "request for information", "addendum",
    "amendment", "scope of work", "sow", "specification", "division 11",
    "division 10", "division 26", "division 27", "division 28", "csi",
    "masterformat", "prevailing wage", "davis bacon", "union", "non union",
    "minority participation", "mbe", "wbe", "dbe", "subcontractor",
    "general contractor", "owner", "architect", "consultant",
    "engineer of record", "base bid", "alternate", "option", "allowance",
    "unit price", "lump sum", "guaranteed maximum price", "gmp",
    "cost plus", "time and materials", "milestone", "phase",
    "schedule of values", "pay application", "invoice", "net 30", "net 60",
    "progress payment"
  ]),
  ("manufacturers", [
    "lg", "samsung", "daktronics", "watchfire", "yaham", "absen", "leyard",
    "planar", "unilumin", "roe visual", "barco", "christie", "nec", "sharp",
    "sony", "mitsubishi", "lighthouse", "sna displays", "nanolumens",
    "optec", "formetco", "vanguard", "dicolor", "aoto", "infiled",
    "novastar", "colorlight", "brompton", "megapixel vr", "elation",
    "martin", "chauvet"
  ])
]


/-- Split a character list on commas (`str.split(",")`). -/
def splitComma : List Char → List (List Char)
  | [] => [[]]
  | c :: cs =>
    match splitComma cs with
    | [] => [[c]]
    | h :: t => if c = ',' then [] :: h :: t else (c :: h) :: t

/-- `[x.strip() for x in s.split(",") if x.strip()]`, as strings. -/
def commaPieces (s : String) : List String :=
  (((splitComma s.data).map pyStrip).filter (fun p => p ≠ [])).map String.mk

/-- Python `dict` item assignment `b[k] = v` on an association list:
replace the value in place if the key exists, else append the pair. -/
def dictSet (b : Bank) (k : String) (v : List String) : Bank :=
  if b.any (fun p => p.1 = k) then
    b.map (fun p => if p.1 = k then (k, v) else p)
  else b ++ [(k, v)]

/-- The disabled-category set built by `triage_pdf` from the optional
query string (a Python set, modelled as a deduplicated list). -/
def requestDisabled (disabled_categories : Option String) : List String :=
  match disabled_categories with
  | none => []
  | some s => if s.data = [] then [] else (commaPieces s).dedup

/-- The per-request bank built by `triage_pdf`:
`local_kw_bank = KEYWORD_BANK.copy()` followed by
`local_kw_bank["custom"] = custom_kw_list` when custom keywords were
supplied and non-empty. -/
def requestLocalBank (store : Bank) (custom_keywords : Option String) : Bank :=
  match custom_keywords with
  | none => store
  | some s =>
    if s.data = [] then store
    else
      let kws := commaPieces s
      if kws = [] then store else dictSet store "custom" kws

/-- The effect of one `triage_pdf` request on the shared bank, paired with
the per-request bank and disabled set it scores with: the handler only
reads the shared bank (it copies it before overlaying), so the first
component is the store it leaves behind for later requests. -/
def triageRequestStep (store : Bank) (custom_keywords : Option String)
    (disabled_categories : Option String) : Bank × Bank × List String :=
  (store, requestLocalBank store custom_keywords,
    requestDisabled disabled_categories)

/-- Outcome of one `httpx` POST as seen by the wrapping `try`: either an
exception (transport failure, non-2xx via `raise_for_status`, or a
malformed response envelope) with its message, or the resolved response
text (`content`, falling back to `reasoning_content` for the vision
backend; `textResponse` for the text backend). -/
inductive CallResult where
  | exn (msg : List Char)
  | success (full : List Char)
deriving DecidableEq, Repr

/-- A screen object as decoded from the backend's JSON array, before the
provenance tagging performed by the extraction wrappers.  `extra` holds
the remaining backend-assigned fields as-is. -/
structure RawScreen where
  screen_name : String
  raw_notes : List Char
  confidence : ℚ
  source_page : Option ℕ
  extra : List (String × String)
deriving DecidableEq, Repr

/-- A merged extraction record: a raw screen plus the provenance pair
written by the wrappers, or a sentinel produced on failure. -/
structure ScreenRecord where
  source_page : ℕ
  source_type : String
  screen_name : String
  raw_notes : List Char
  confidence : ℚ
  extra : List (String × String)
deriving DecidableEq, Repr

/-- An oracle for `json.loads` restricted to the expected structured
format: `some screens` when the cleaned text parses as a JSON array of
screen objects, `none` otherwise. -/
abbrev JsonOracle := List Char → Option (List RawScreen)

/-- The three-backtick code-fence marker. -/
def fenceChars : List Char := [Char.ofNat 96, Char.ofNat 96, Char.ofNat 96]

/-- Everything after the first newline (`s.split("\n", 1)[1]`), or `none`
when there is no newline, in which case Python raises `IndexError`. -/
def afterFirstNewline (l : List Char) : Option (List Char) :=
  if l.any (fun c => c = '\n') then
    some ((l.dropWhile (fun c => c != '\n')).drop 1)
  else none

/-- Index of the last occurrence of the code fence in `l`, if any. -/
def lastFenceIdx (l : List Char) : Option ℕ :=
  ((List.range (l.length + 1)).filter
    (fun i => decide ((l.drop i).take 3 = fenceChars))).getLast?

/-- `s.rsplit("```", 1)[0]`: everything before the last code fence, or
the whole string when there is none. -/
def beforeLastFence (l : List Char) : List Char :=
  match lastFenceIdx l with
  | none => l
  | some i => l.take i

/-- The message of Python's `IndexError` raised by `split("\n", 1)[1]`. -/
def indexErrMsg : List Char := "list index out of range".data

/-- The code-fence stripping performed by both extraction wrappers:
`cleaned = s.strip()`; when it starts with three backticks, drop the
first line and everything from the last fence on.  `Except.error` marks
the `IndexError` path (fence with no newline), which the enclosing
`try` turns into an API-error sentinel. -/
def stripFence (s : List Char) : Except (List Char) (List Char) :=
  let c := pyStrip s
  if c.take 3 = fenceChars then
    match afterFirstNewline c with
    | none => .error indexErrMsg
    | some rest => .ok (beforeLastFence rest)
  else .ok c

/-- The sentinel record appended on the exception path of either wrapper. -/
def apiErrorRec (stype : String) (pg : ℕ) (msg : List Char) : ScreenRecord :=
  ⟨pg, stype, "API_ERROR", msg, 0, []⟩

/-- The sentinel record appended when `json.loads` fails on the cleaned
response; `raw_notes` keeps the full (uncleaned) response text. -/
def parseErrorRec (stype : String) (pg : ℕ) (full : List Char) : ScreenRecord :=
  ⟨pg, stype, "PARSE_ERROR", full, 0, []⟩

/-- The provenance tagging of `extract_from_drawing`:
`screen["source_page"] = img["page_num"]; screen["source_type"] = "drawing"`. -/
def tagDrawing (pg : ℕ) (r : RawScreen) : ScreenRecord :=
  ⟨pg, "drawing", r.screen_name, r.raw_notes, r.confidence, r.extra⟩

/-- One iteration of the per-image loop of `extract_from_drawing`, for the
image of page `pg` whose backend call produced `res`. -/
def drawingItem (jp : JsonOracle) (pg : ℕ) (res : CallResult) :
    List ScreenRecord :=
  match res with
  | .exn msg => [apiErrorRec "drawing" pg msg]
  | .success full =>
    match stripFence full with
    | .error msg => [apiErrorRec "drawing" pg msg]
    | .ok cleaned =>
      match jp cleaned with
      | none => [parseErrorRec "drawing" pg full]
      | some screens => screens.map (tagDrawing pg)

/-- `extract_from_drawing` from `extraction.py`: one vision call per
image, each wrapped in its own `try`, results concatenated in order. -/
def extract_from_drawing (jp : JsonOracle)
    (images : List (ℕ × CallResult)) : List ScreenRecord :=
  (images.map (fun ir => drawingItem jp ir.1 ir.2)).flatten

/-- The provenance tagging of `extract_from_text`: `source_type = "text"`
and `source_page` defaulted to the first submitted page when the backend
left it absent or null. -/
def tagText (pageNums : List ℕ) (r : RawScreen) : ScreenRecord :=
  ⟨r.source_page.getD (pageNums.headD 0), "text", r.screen_name,
    r.raw_notes, r.confidence, r.extra⟩

/-- `extract_from_text` from `extraction.py`: empty input short-circuits
to `[]` before any call; otherwise one batched call whose outcome is
`res`, wrapped exactly like the vision calls. -/
def extract_from_text (jp : JsonOracle) (pageNums : List ℕ)
    (res : CallResult) : List ScreenRecord :=
  if pageNums = [] then []
  else
    match res with
    | .exn msg => [apiErrorRec "text" (pageNums.headD 0) msg]
    | .success full =>
      match stripFence full with
      | .error msg => [apiErrorRec "text" (pageNums.headD 0) msg]
      | .ok cleaned =>
        match jp cleaned with
        | none => [parseErrorRec "text" (pageNums.headD 0) full]
        | some screens => screens.map (tagText pageNums)

/-- One page row of the triage result consumed by the orchestrator
(`p["page_num"]`, `p["classification"]`, `p.get("recommended")`). -/
structure TPage where
  page_num : ℕ
  classification : String
  recommended : String
deriving DecidableEq, Repr

/-- The `summary` object returned by `/api/extract-specs`. -/
structure OrchSummary where
  total_screens_found : ℕ
  from_text : ℕ
  from_drawings : ℕ
  text_pages_processed : ℕ
  drawing_pages_processed : ℕ
  processing_time_ms : ℕ
deriving DecidableEq, Repr

/-- The body returned by `/api/extract-specs`. -/
structure OrchResult where
  screens : List ScreenRecord
  summary : OrchSummary
deriving DecidableEq, Repr

/-- A backend dispatch performed by the orchestrator, with the page
numbers it covers. -/
inductive BackendCall where
  | textCall (pages : List ℕ)
  | visionCall (pages : List ℕ)
deriving DecidableEq, Repr

/-- `extract_specs_orchestrator` from `main.py`, returning both the
response body and the list of backend dispatches it issues.  `docLen` is
the page count of the uploaded PDF, `textOutcome` the outcome of the one
batched text call, `visionOutcome` the per-page outcome of the vision
calls, and `elapsed` the measured wall-clock time of the non-empty
branch.  Python set comprehensions over page numbers are modelled as
deduplicated lists in first-occurrence order. -/
def extract_specs_orchestrator (jp : JsonOracle) (docLen : ℕ)
    (textOutcome : CallResult) (visionOutcome : ℕ → CallResult)
    (elapsed : ℕ) (pages_data : List TPage) : OrchResult × List BackendCall :=
  let keep_pages := pages_data.filter
    (fun p => p.recommended ∈ (["keep", "maybe", "review"] : List String))
  if keep_pages = [] then
    (⟨[], ⟨0, 0, 0, 0, 0, 0⟩⟩, [])
  else
    let textNums :=
      ((keep_pages.filter (fun p => p.classification = "text")).map
        (fun p => p.page_num)).dedup
    let drawNums :=
      ((keep_pages.filter (fun p => p.classification = "drawing")).map
        (fun p => p.page_num)).dedup
    let textPayloadNums := textNums.filter (fun p => 1 ≤ p ∧ p ≤ docLen)
    let visionPayloadNums := drawNums.filter (fun p => 1 ≤ p ∧ p ≤ docLen)
    let calls :=
      (if textPayloadNums ≠ [] then [BackendCall.textCall textPayloadNums]
       else []) ++
      (if visionPayloadNums ≠ [] then [BackendCall.visionCall visionPayloadNums]
       else [])
    let textRes :=
      if textPayloadNums ≠ [] then
        extract_from_text jp textPayloadNums textOutcome
      else []
    let visionRes :=
      if visionPayloadNums ≠ [] then
        extract_from_drawing jp
          (visionPayloadNums.map (fun p => (p, visionOutcome p)))
      else []
    let all := textRes ++ visionRes
    (⟨all, ⟨all.length, textRes.length, visionRes.length,
      textPayloadNums.length, visionPayloadNums.length, elapsed⟩⟩, calls)

section ScanLemmas

/-- The inner keyword loop accumulates exactly the sum of the occurrence
counts of the category's keywords. -/
lemma inner_foldl_hits (n : List Char) (cat : String) :
    ∀ (kws : List String) (st : ScanState),
    (kws.foldl (scanKeyword n cat) st).hits
      = st.hits + (kws.map (kwCount n)).sum := by
  intro kws
  induction kws with
  | nil => intro st; simp
  | cons kw rest ih =>
    intro st
    rw [List.foldl_cons, ih]
    by_cases h : 0 < kwCount n kw
    · simp only [scanKeyword, if_pos h, List.map_cons, List.sum_cons]
      omega
    · have h0 : kwCount n kw = 0 := by omega
      simp [scanKeyword, h, h0]

/-- The inner keyword loop appends, once each and in order, exactly the
keywords with at least one hit. -/
lemma inner_foldl_keywords (n : List Char) (cat : String) :
    ∀ (kws : List String) (st : ScanState),
    (kws.foldl (scanKeyword n cat) st).matched_keywords
      = st.matched_keywords
        ++ kws.filter (fun kw => decide (0 < kwCount n kw)) := by
  intro kws
  induction kws with
  | nil => intro st; simp
  | cons kw rest ih =>
    intro st
    rw [List.foldl_cons, ih]
    by_cases h : 0 < kwCount n kw
    · simp [scanKeyword, h]
    · simp [scanKeyword, h]

/-- The category loop of `score_page` accumulates the spec-side total hit
count over the enabled categories. -/
lemma bank_foldl_hits (n : List Char) (disabled : List String) :
    ∀ (bank : Bank) (st : ScanState),
    (bank.foldl (fun st ck =>
        if disabled ≠ [] ∧ ck.1 ∈ disabled then st
        else ck.2.foldl (scanKeyword n ck.1) st) st).hits
      = st.hits + totalHits n bank disabled := by
  intro bank
  induction bank with
  | nil => intro st; simp [totalHits, enabledBank]
  | cons ck rest ih =>
    intro st
    rw [List.foldl_cons]
    by_cases h : ck.1 ∈ disabled
    · have hne : disabled ≠ [] := List.ne_nil_of_mem h
      rw [if_pos ⟨hne, h⟩, ih]
      simp [totalHits, enabledBank, h]
    · rw [if_neg (by tauto), ih, inner_foldl_hits]
      simp only [totalHits, enabledBank, List.filter_cons]
      simp [h]
      omega

/-- The category loop of `score_page` records the spec-side matched
keyword list over the enabled categories. -/
lemma bank_foldl_keywords (n : List Char) (disabled : List String) :
    ∀ (bank : Bank) (st : ScanState),
    (bank.foldl (fun st ck =>
        if disabled ≠ [] ∧ ck.1 ∈ disabled then st
        else ck.2.foldl (scanKeyword n ck.1) st) st).matched_keywords
      = st.matched_keywords ++ matchedKeywordsSpec n bank disabled := by
  intro bank
  induction bank with
  | nil => intro st; simp [matchedKeywordsSpec, enabledBank]
  | cons ck rest ih =>
    intro st
    rw [List.foldl_cons]
    by_cases h : ck.1 ∈ disabled
    · have hne : disabled ≠ [] := List.ne_nil_of_mem h
      rw [if_pos ⟨hne, h⟩, ih]
      simp [matchedKeywordsSpec, enabledBank, h]
    · rw [if_neg (by tauto), ih, inner_foldl_keywords]
      simp only [matchedKeywordsSpec, enabledBank, List.filter_cons]
      simp [h]

lemma scanBank_hits (n : List Char) (bank : Bank) (disabled : List String) :
    (scanBank n bank disabled).hits = totalHits n bank disabled := by
  simpa [scanBank] using bank_foldl_hits n disabled bank ⟨0, [], []⟩

lemma scanBank_keywords (n : List Char) (bank : Bank)
    (disabled : List String) :
    (scanBank n bank disabled).matched_keywords
      = matchedKeywordsSpec n bank disabled := by
  simpa [scanBank] using bank_foldl_keywords n disabled bank ⟨0, [], []⟩

end ScanLemmas

/-- C1.  For a text whose trimmed length is at least 50 characters,
`score_page` reports as its hit count the sum, over every enabled keyword
of the bank, of that keyword's whole-phrase occurrence count in the
normalized text, and its score field is that total divided by the square
root of the normalized text length and rounded to 4 decimal places, or
`0.0` when the normalized text length is `0`. -/
theorem score_page_score_correct (text : List Char) (bank : Bank)
    (disabled : List String)
    (h : ¬(text = [] ∨ (pyStrip text).length < 50)) :
    (score_page text bank disabled).hits
        = totalHits (normalize_text text) bank disabled
    ∧ (score_page text bank disabled).textLength
        = (normalize_text text).length
    ∧ ((normalize_text text).length = 0 →
        (score_page text bank disabled).score = 0)
    ∧ (0 < (normalize_text text).length →
        (score_page text bank disabled).score
          = round4 ((totalHits (normalize_text text) bank disabled : ℝ)
              / Real.sqrt ((normalize_text text).length))) := by
  rw [score_page, if_neg h]
  refine ⟨scanBank_hits .., rfl, fun h0 => ?_, fun h0 => ?_⟩
  · simp [PageScore.score, scoreFormula, h0, round4]
  · simp [PageScore.score, scoreFormula, scanBank_hits,
      Nat.pos_iff_ne_zero.mp h0]

/-- C2.  A text that is empty or trims to fewer than 50 characters is
classified as a drawing with score `0.0`, empty matched keyword and
category lists and an empty snippet, for every bank and disabled set. -/
theorem score_page_short_text (text : List Char) (bank : Bank)
    (disabled : List String)
    (h : text = [] ∨ (pyStrip text).length < 50) :
    score_page text bank disabled = ⟨"drawing", 0, 0, [], [], []⟩
    ∧ (score_page text bank disabled).score = 0 := by
  have he : score_page text bank disabled = ⟨"drawing", 0, 0, [], [], []⟩ := by
    rw [score_page, if_pos h]
  refine ⟨he, ?_⟩
  rw [he]
  simp [PageScore.score, scoreFormula, round4]

/-- Witness for C2 at a non-empty 11-character text made entirely of
keywords of the full bank. -/
theorem score_page_short_text_witness :
    ("led display".data = [] ∨ (pyStrip "led display".data).length < 50)
    ∧ score_page "led display".data KEYWORD_BANK []
        = ⟨"drawing", 0, 0, [], [], []⟩ := by
  refine ⟨by decide, ?_⟩
  exact (score_page_short_text "led display".data KEYWORD_BANK []
    (by decide)).1

/-- C3.  The recommendation policy: a drawing is always `review`; for any
other classification a score at least `0.3` yields `keep`, a positive
score below `0.3` yields `maybe`, and a non-positive score yields
`discard`. -/
theorem get_recommendation_policy (s : ℚ) (c : String) :
    get_recommendation s "drawing" = "review"
    ∧ (c ≠ "drawing" →
        (3 / 10 ≤ s → get_recommendation s c = "keep")
        ∧ (0 < s → s < 3 / 10 → get_recommendation s c = "maybe")
        ∧ (s ≤ 0 → get_recommendation s c = "discard")) := by
  refine ⟨by simp [get_recommendation],
    fun hc => ⟨fun hk => ?_, fun h1 h2 => ?_, fun hd => ?_⟩⟩
  · rw [get_recommendation, if_neg hc, if_pos hk]
  · rw [get_recommendation, if_neg hc, if_neg (not_le.mpr h2), if_pos h1]
  · have h3 : ¬(3 / 10 ≤ s) := not_le.mpr (lt_of_le_of_lt hd (by norm_num))
    rw [get_recommendation, if_neg hc, if_neg h3, if_neg (not_lt.mpr hd)]

/-- Witness for C3 at the scores named by the claim. -/
theorem get_recommendation_policy_witness :
    get_recommendation 0 "text" = "discard"
    ∧ get_recommendation (15 / 100) "text" = "maybe"
    ∧ get_recommendation (3 / 10) "text" = "keep"
    ∧ get_recommendation (1 / 2) "text" = "keep"
    ∧ get_recommendation (1 / 2) "drawing" = "review" := by
  refine ⟨((get_recommendation_policy 0 "text").2 (by decide)).2.2 (by norm_num),
    (((get_recommendation_policy (15 / 100) "text").2 (by decide)).2.1
      (by norm_num) (by norm_num)),
    ((get_recommendation_policy (3 / 10) "text").2 (by decide)).1 (by norm_num),
    ((get_recommendation_policy (1 / 2) "text").2 (by decide)).1 (by norm_num),
    (get_recommendation_policy (1 / 2) "drawing").1⟩

/-- In a flatten of per-category keyword filters, a keyword is counted at
most once per category whose (duplicate-free) list contains it. -/
lemma flatten_count_le (kw : String) (p : String → Bool) :
    ∀ L : List (String × List String), (∀ ck ∈ L, ck.2.Nodup) →
    ((L.map (fun ck => ck.2.filter p)).flatten.count kw
      ≤ (L.filter (fun ck => decide (kw ∈ ck.2))).length) := by
  intro L
  induction L with
  | nil => simp
  | cons ck rest ih =>
    intro h
    have h1 : ck.2.Nodup := h ck (by simp)
    have h2 : ∀ c ∈ rest, c.2.Nodup := fun c hc => h c (by simp [hc])
    have hr := ih h2
    rw [List.map_cons, List.flatten_cons, List.count_append, List.filter_cons]
    by_cases hm : kw ∈ ck.2
    · have hb : (ck.2.filter p).count kw ≤ 1 := by
        calc (ck.2.filter p).count kw
            ≤ ck.2.count kw := (List.filter_sublist _).count_le _
          _ ≤ 1 := List.nodup_iff_count_le_one.mp h1 kw
      rw [if_pos (by simpa using hm), List.length_cons]
      omega
    · have hz : (ck.2.filter p).count kw = 0 := by
        rw [List.count_eq_zero]
        intro hmem
        exact hm (List.mem_of_mem_filter hmem)
      rw [if_neg (by simpa using hm), hz]
      omega

/-- C10.  On a scored (non-drawing) page, the matched-keyword list holds
each enabled keyword with at least one hit exactly once per category
listing it (at most once per category when category lists are
duplicate-free), while the hit count sums every occurrence of every
enabled keyword, so the list's length can be smaller than the hit
count. -/
theorem score_page_keyword_dedup (text : List Char) (bank : Bank)
    (disabled : List String)
    (h : ¬(text = [] ∨ (pyStrip text).length < 50)) :
    (score_page text bank disabled).matched_keywords
        = matchedKeywordsSpec (normalize_text text) bank disabled
    ∧ (score_page text bank disabled).hits
        = totalHits (normalize_text text) bank disabled
    ∧ ((∀ ck ∈ bank, ck.2.Nodup) → ∀ kw,
        (score_page text bank disabled).matched_keywords.count kw
          ≤ ((enabledBank bank disabled).filter
              (fun ck => decide (kw ∈ ck.2))).length) := by
  rw [score_page, if_neg h]
  refine ⟨scanBank_keywords .., scanBank_hits .., fun hnd kw => ?_⟩
  have hnd' : ∀ ck ∈ enabledBank bank disabled, ck.2.Nodup :=
    fun ck hck => hnd ck (List.mem_of_mem_filter hck)
  simpa [scanBank_keywords, matchedKeywordsSpec] using
    flatten_count_le kw _ (enabledBank bank disabled) hnd'

set_option maxRecDepth 40000 in
/-- Witness for C10: a page repeating `led wall` twice yields two hits but
a single matched-keyword entry, so the list is strictly shorter than the
hit count. -/
theorem score_page_keyword_dedup_witness :
    (¬("the led wall spec mentions the led wall twice over fifty chars".data
          = []
        ∨ (pyStrip
            "the led wall spec mentions the led wall twice over fifty chars".data).length
          < 50))
    ∧ (score_page
        "the led wall spec mentions the led wall twice over fifty chars".data
        [("display_hardware", ["led wall"])] []).matched_keywords.count
          "led wall"
        ≤ (((enabledBank [("display_hardware", ["led wall"])] []).filter
            (fun ck => decide ("led wall" ∈ ck.2)))).length
    ∧ (score_page
        "the led wall spec mentions the led wall twice over fifty chars".data
        [("display_hardware", ["led wall"])] []).matched_keywords.length
        < (score_page
            "the led wall spec mentions the led wall twice over fifty chars".data
            [("display_hardware", ["led wall"])] []).hits := by
  refine ⟨by decide, ?_, by decide⟩
  exact (score_page_keyword_dedup
    "the led wall spec mentions the led wall twice over fifty chars".data
    [("display_hardware", ["led wall"])] [] (by decide)).2.2
    (by decide) "led wall"

/-- C8.  When no page of the triage result carries an eligible
recommendation, the orchestrator returns an empty screen list with an
all-zero summary and dispatches no backend call. -/
theorem orchestrator_no_eligible (jp : JsonOracle) (docLen : ℕ)
    (textOutcome : CallResult) (visionOutcome : ℕ → CallResult)
    (elapsed : ℕ) (pages_data : List TPage)
    (h : ∀ p ∈ pages_data,
      p.recommended ∉ (["keep", "maybe", "review"] : List String)) :
    extract_specs_orchestrator jp docLen textOutcome visionOutcome elapsed
        pages_data
      = (⟨[], ⟨0, 0, 0, 0, 0, 0⟩⟩, []) := by
  have hf : pages_data.filter
      (fun p => p.recommended ∈ (["keep", "maybe", "review"] : List String))
      = [] := by
    rw [List.filter_eq_nil_iff]
    intro p hp
    simpa using h p hp
  simp only [extract_specs_orchestrator]
  rw [hf]
  simp

/-- Witness for C8 on a two-page all-discard triage result with failing
backends standing by. -/
theorem orchestrator_no_eligible_witness :
    extract_specs_orchestrator (fun _ => none) 3 (.exn []) (fun _ => .exn [])
        5 [⟨1, "text", "discard"⟩, ⟨2, "drawing", "discard"⟩]
      = (⟨[], ⟨0, 0, 0, 0, 0, 0⟩⟩, []) :=
  orchestrator_no_eligible (fun _ => none) 3 (.exn []) (fun _ => .exn []) 5
    [⟨1, "text", "discard"⟩, ⟨2, "drawing", "discard"⟩] (by decide)

set_option maxRecDepth 80000 in
/-- Witness for C1 at a 70-character page against a two-category bank. -/
theorem score_page_score_correct_witness :
    (¬("the led wall has a pixel pitch of 2 5 mm and a brightness of 5000 nit".data
          = []
        ∨ (pyStrip
            "the led wall has a pixel pitch of 2 5 mm and a brightness of 5000 nit".data).length
          < 50))
    ∧ (score_page
        "the led wall has a pixel pitch of 2 5 mm and a brightness of 5000 nit".data
        [("display_hardware", ["led wall"]), ("specs", ["pixel pitch", "nit"])]
        []).hits
      = totalHits
          (normalize_text
            "the led wall has a pixel pitch of 2 5 mm and a brightness of 5000 nit".data)
          [("display_hardware", ["led wall"]), ("specs", ["pixel pitch", "nit"])]
          []
    ∧ (score_page
        "the led wall has a pixel pitch of 2 5 mm and a brightness of 5000 nit".data
        [("display_hardware", ["led wall"]), ("specs", ["pixel pitch", "nit"])]
        []).score
      = round4
          ((totalHits
              (normalize_text
                "the led wall has a pixel pitch of 2 5 mm and a brightness of 5000 nit".data)
              [("display_hardware", ["led wall"]), ("specs", ["pixel pitch", "nit"])]
              [] : ℝ)
            / Real.sqrt
                ((normalize_text
                  "the led wall has a pixel pitch of 2 5 mm and a brightness of 5000 nit".data).length)) := by
  refine ⟨by decide, ?_, ?_⟩
  · exact (score_page_score_correct
      "the led wall has a pixel pitch of 2 5 mm and a brightness of 5000 nit".data
      [("display_hardware", ["led wall"]), ("specs", ["pixel pitch", "nit"])]
      [] (by decide)).1
  · exact (score_page_score_correct
      "the led wall has a pixel pitch of 2 5 mm and a brightness of 5000 nit".data
      [("display_hardware", ["led wall"]), ("specs", ["pixel pitch", "nit"])]
      [] (by decide)).2.2.2 (by decide)

section NormalizeLemmas

/-- Whether a text begins with a whitespace character. -/
def headIsSpace : List Char → Bool
  | [] => false
  | c :: _ => pyIsSpace c

lemma wordsOf_cons_space {c : Char} (cs : List Char) (h : pyIsSpace c = true) :
    wordsOf (c :: cs) = wordsOf cs := by
  simp [wordsOf, h]

lemma wordsOf_singleton {c : Char} (h : pyIsSpace c = false) :
    wordsOf [c] = [[c]] := by
  simp [wordsOf, h]

lemma wordsOf_cons_break {c d : Char} (rest : List Char)
    (h : pyIsSpace c = false) (hd : pyIsSpace d = true) :
    wordsOf (c :: d :: rest) = [c] :: wordsOf (d :: rest) := by
  conv_lhs => rw [wordsOf]
  simp [h, hd]

lemma wordsOf_cons_glue {c d : Char} (rest : List Char) {w : List Char}
    {ws : List (List Char)} (h : pyIsSpace c = false)
    (hd : pyIsSpace d = false) (hw : wordsOf (d :: rest) = w :: ws) :
    wordsOf (c :: d :: rest) = (c :: w) :: ws := by
  conv_lhs => rw [wordsOf]
  simp [h, hd, hw]

lemma wordsOf_ne_nil {c : Char} (cs : List Char) (h : pyIsSpace c = false) :
    wordsOf (c :: cs) ≠ [] := by
  cases cs with
  | nil => simp [wordsOf_singleton h]
  | cons d rest =>
    by_cases hd : pyIsSpace d
    · simp [wordsOf_cons_break rest h hd]
    · cases hw : wordsOf (d :: rest) with
      | nil =>
        conv_lhs => rw [wordsOf]
        simp [h, hd, hw]
      | cons w ws => simp [wordsOf_cons_glue rest h (by simpa using hd) hw]

lemma joinWords_cons_cons (w w2 : List Char) (ws : List (List Char)) :
    joinWords (w :: w2 :: ws) = w ++ ' ' :: joinWords (w2 :: ws) := by
  rw [joinWords]

lemma joinWords_glue (c : Char) (w : List Char) (ws : List (List Char)) :
    joinWords ((c :: w) :: ws) = c :: joinWords (w :: ws) := by
  cases ws with
  | nil => simp [joinWords]
  | cons w2 ws2 => rw [joinWords_cons_cons, joinWords_cons_cons]; simp

lemma joinWords_wordsOf_head {c : Char} (cs : List Char)
    (h : pyIsSpace c = false) :
    ∃ t, joinWords (wordsOf (c :: cs)) = c :: t := by
  cases cs with
  | nil => exact ⟨[], by simp [wordsOf_singleton h, joinWords]⟩
  | cons d rest =>
    by_cases hd : pyIsSpace d
    · rw [wordsOf_cons_break rest h hd]
      cases hw : wordsOf (d :: rest) with
      | nil => exact ⟨[], by simp [joinWords]⟩
      | cons w ws =>
        exact ⟨' ' :: joinWords (w :: ws), by rw [joinWords_cons_cons]; simp⟩
    · cases hw : wordsOf (d :: rest) with
      | nil => exact absurd hw (wordsOf_ne_nil rest (by simpa using hd))
      | cons w ws =>
        rw [wordsOf_cons_glue rest h (by simpa using hd) hw]
        exact ⟨_, joinWords_glue c w ws⟩

lemma dropTrailing_cons (c : Char) (x : List Char) :
    dropTrailing (c :: x)
      = if dropTrailing x = [] then (if pyIsSpace c then [] else [c])
        else c :: dropTrailing x := by
  simp only [dropTrailing]

/-- Key invariant: after whitespace collapsing, trimming the right end
leaves the joined word list, preceded by one space exactly when the text
began with whitespace and has at least one word. -/
lemma dropTrailing_collapseWS :
    ∀ m : List Char,
    dropTrailing (collapseWS m)
      = if headIsSpace m = true ∧ wordsOf m ≠ [] then
          ' ' :: joinWords (wordsOf m)
        else joinWords (wordsOf m) := by
  intro m
  induction m with
  | nil => simp [collapseWS, wordsOf, joinWords, dropTrailing, headIsSpace]
  | cons c m ih =>
    cases m with
    | nil =>
      by_cases hc : pyIsSpace c
      · simp [collapseWS, hc, dropTrailing, wordsOf, joinWords, headIsSpace,
          (by decide : pyIsSpace ' ' = true)]
      · simp [collapseWS, hc, dropTrailing, joinWords, headIsSpace,
          wordsOf_singleton (by simpa using hc)]
    | cons d rest =>
      by_cases hc : pyIsSpace c <;> by_cases hd : pyIsSpace d
      · -- both whitespace: the run is collapsed from the left
        have hcol : collapseWS (c :: d :: rest) = collapseWS (d :: rest) := by
          rw [collapseWS]
          simp [hc, hd]
        rw [hcol, ih, wordsOf_cons_space (d :: rest) hc]
        simp [headIsSpace, hc, hd]
      · -- whitespace then word: a single space survives collapsing
        have hcol : collapseWS (c :: d :: rest)
            = ' ' :: collapseWS (d :: rest) := by
          rw [collapseWS]
          simp [hc, hd]
        obtain ⟨t, ht⟩ := joinWords_wordsOf_head rest (by simpa using hd)
        have hne : joinWords (wordsOf (d :: rest)) ≠ [] := by simp [ht]
        have hih : dropTrailing (collapseWS (d :: rest))
            = joinWords (wordsOf (d :: rest)) := by
          rw [ih]
          simp [headIsSpace, hd]
        rw [hcol, dropTrailing_cons, hih, if_neg hne,
          wordsOf_cons_space (d :: rest) hc,
          if_pos ⟨by simp [headIsSpace, hc],
            wordsOf_ne_nil rest (by simpa using hd)⟩]
      · -- word then whitespace: the word breaks here
        have hcol : collapseWS (c :: d :: rest)
            = c :: collapseWS (d :: rest) := by
          rw [collapseWS]
          simp [hc, hd]
        rw [hcol, dropTrailing_cons, ih,
          wordsOf_cons_break rest (by simpa using hc) hd]
        cases hw : wordsOf (d :: rest) with
        | nil =>
          simp [headIsSpace, hc, hd, hw, joinWords]
        | cons w ws =>
          simp [headIsSpace, hc, hd, hw, joinWords_cons_cons]
      · -- two word characters: the word continues
        have hcol : collapseWS (c :: d :: rest)
            = c :: collapseWS (d :: rest) := by
          rw [collapseWS]
          simp [hc, hd]
        obtain ⟨t, ht⟩ := joinWords_wordsOf_head rest (by simpa using hd)
        cases hw : wordsOf (d :: rest) with
        | nil => exact absurd hw (wordsOf_ne_nil rest (by simpa using hd))
        | cons w ws =>
          have hih : dropTrailing (collapseWS (d :: rest))
              = joinWords (w :: ws) := by
            rw [ih, hw]
            simp [headIsSpace, hd]
          have hne : joinWords (w :: ws) ≠ [] := by
            rw [hw] at ht
            simp [ht]
          rw [hcol, dropTrailing_cons, hih, if_neg hne,
            wordsOf_cons_glue rest (by simpa using hc) (by simpa using hd) hw,
            joinWords_glue]
          simp [headIsSpace, hc]

lemma dropWhile_collapseWS :
    ∀ m : List Char,
    (collapseWS m).dropWhile pyIsSpace
      = collapseWS (m.dropWhile pyIsSpace) := by
  have hsp : pyIsSpace ' ' = true := by decide
  intro m
  induction m with
  | nil => simp [collapseWS]
  | cons c m ih =>
    cases m with
    | nil =>
      by_cases hc : pyIsSpace c
      · have h1 : collapseWS [c] = [' '] := by simp [collapseWS, hc]
        have h2 : List.dropWhile pyIsSpace [' '] = [] := by decide
        have h3 : List.dropWhile pyIsSpace [c] = [] := by
          rw [List.dropWhile_cons]
          simp [hc]
        rw [h1, h2, h3]
        simp [collapseWS]
      · simp [collapseWS, hc, List.dropWhile_cons]
    | cons d rest =>
      by_cases hc : pyIsSpace c <;> by_cases hd : pyIsSpace d
      · have hcol : collapseWS (c :: d :: rest) = collapseWS (d :: rest) := by
          rw [collapseWS]
          simp [hc, hd]
        rw [hcol, ih]
        simp [List.dropWhile_cons, hc]
      · have hcol : collapseWS (c :: d :: rest)
            = ' ' :: collapseWS (d :: rest) := by
          rw [collapseWS]
          simp [hc, hd]
        have h4 : List.dropWhile pyIsSpace (c :: d :: rest)
            = List.dropWhile pyIsSpace (d :: rest) := by
          rw [List.dropWhile_cons]
          simp [hc]
        rw [hcol, h4, List.dropWhile_cons]
        simp only [hsp, ite_true]
        exact ih
      · have hcol : collapseWS (c :: d :: rest)
            = c :: collapseWS (d :: rest) := by
          rw [collapseWS]
          simp [hc, hd]
        have hc' : pyIsSpace c = false := by simpa using hc
        rw [hcol, List.dropWhile_cons, List.dropWhile_cons]
        simp [hc', hcol]
      · have hcol : collapseWS (c :: d :: rest)
            = c :: collapseWS (d :: rest) := by
          rw [collapseWS]
          simp [hc, hd]
        have hc' : pyIsSpace c = false := by simpa using hc
        rw [hcol, List.dropWhile_cons, List.dropWhile_cons]
        simp [hc', hcol]

lemma wordsOf_dropWhile :
    ∀ m : List Char, wordsOf (m.dropWhile pyIsSpace) = wordsOf m := by
  intro m
  induction m with
  | nil => simp
  | cons c m ih =>
    by_cases hc : pyIsSpace c
    · rw [List.dropWhile_cons]
      simp only [hc, if_true, ite_true]
      rw [ih, wordsOf_cons_space m hc]
    · rw [List.dropWhile_cons]
      simp [hc]

lemma headIsSpace_dropWhile :
    ∀ m : List Char, headIsSpace (m.dropWhile pyIsSpace) = false := by
  intro m
  induction m with
  | nil => simp [headIsSpace]
  | cons c m ih =>
    by_cases hc : pyIsSpace c
    · rw [List.dropWhile_cons]
      simp only [hc, ite_true]
      exact ih
    · rw [List.dropWhile_cons]
      simp [hc, headIsSpace]

end NormalizeLemmas

/-- C4 (amended).  `normalize_text` lowercases its input, replaces every
character that is neither a word character (alphanumeric or underscore,
the regex class `\w`) nor whitespace by a space, collapses every
whitespace run to a single space and trims both edges: it equals the
specification-side `normalizeSpec`, which lowercases and cleans each
character the same way and then rejoins the maximal non-whitespace runs
with single separating spaces.  The claim's original wording (every
non-alphanumeric non-whitespace character replaced) fails on the
underscore; see the counterexample below. -/
theorem normalize_text_correct (l : List Char) :
    normalize_text l = normalizeSpec l := by
  rw [normalize_text, normalizeSpec, pyStrip, dropWhile_collapseWS,
    dropTrailing_collapseWS, wordsOf_dropWhile]
  rw [if_neg]
  intro hcon
  rw [headIsSpace_dropWhile] at hcon
  exact absurd hcon.1 (by simp)

section ScoreMonotonicity

lemma round_mono {x y : ℝ} (h : x ≤ y) : round x ≤ round y := by
  rw [round_eq, round_eq]
  exact Int.floor_mono (by linarith)

lemma round4_mono {x y : ℝ} (h : x ≤ y) : round4 x ≤ round4 y := by
  rw [round4, round4]
  have h1 : round (x * 10000) ≤ round (y * 10000) :=
    round_mono (by nlinarith)
  have h2 : ((round (x * 10000) : ℤ) : ℝ) ≤ ((round (y * 10000) : ℤ) : ℝ) := by
    exact_mod_cast h1
  linarith

end ScoreMonotonicity

/-- C5 (amended).  The returned score is monotonically non-decreasing in
the hit count at fixed normalized length, and non-increasing in the
normalized length at fixed positive hit count; the unrounded ratio
`hits / sqrt(length)` is strictly decreasing in the length, but the
4-decimal rounding of the returned score makes the decrease non-strict. -/
theorem scoreFormula_monotone :
    (∀ h1 h2 len : ℕ, h1 ≤ h2 → scoreFormula h1 len ≤ scoreFormula h2 len)
    ∧ (∀ hits l1 l2 : ℕ, 0 < hits → 0 < l1 → l1 ≤ l2 →
        scoreFormula hits l2 ≤ scoreFormula hits l1)
    ∧ (∀ hits l1 l2 : ℕ, 0 < hits → 0 < l1 → l1 < l2 →
        (hits : ℝ) / Real.sqrt l2 < (hits : ℝ) / Real.sqrt l1) := by
  refine ⟨fun h1 h2 len hle => ?_, fun hits l1 l2 hh hl1 hle => ?_,
    fun hits l1 l2 hh hl1 hlt => ?_⟩
  · rcases Nat.eq_zero_or_pos len with hz | hp
    · simp [scoreFormula, hz]
    · rw [scoreFormula, scoreFormula, if_neg (by omega), if_neg (by omega)]
      apply round4_mono
      have hs : (0 : ℝ) < Real.sqrt len :=
        Real.sqrt_pos.mpr (by exact_mod_cast hp)
      have hc : ((h1 : ℕ) : ℝ) ≤ ((h2 : ℕ) : ℝ) := by exact_mod_cast hle
      gcongr
  · rw [scoreFormula, scoreFormula, if_neg (by omega), if_neg (by omega)]
    apply round4_mono
    have hs1 : (0 : ℝ) < Real.sqrt l1 :=
      Real.sqrt_pos.mpr (by exact_mod_cast hl1)
    have hs2 : Real.sqrt l1 ≤ Real.sqrt l2 :=
      Real.sqrt_le_sqrt (by exact_mod_cast hle)
    have ha : (0 : ℝ) ≤ (hits : ℝ) := Nat.cast_nonneg hits
    gcongr
  · have hs1 : (0 : ℝ) < Real.sqrt l1 :=
      Real.sqrt_pos.mpr (by exact_mod_cast hl1)
    have hs2 : Real.sqrt l1 < Real.sqrt l2 :=
      Real.sqrt_lt_sqrt (Nat.cast_nonneg l1) (by exact_mod_cast hlt)
    exact div_lt_div_of_pos_left (by exact_mod_cast hh) hs1 hs2

/-- Counterexample for C5 as stated: increasing the normalized length from
`10^8` to `10^8 + 1` at hit count `1` leaves the returned (rounded) score
unchanged at `0.0001`, so the score is not strictly decreasing in the
text length. -/
theorem scoreFormula_strict_decrease_fails :
    0 < (1 : ℕ) ∧ (10 ^ 8 : ℕ) < 10 ^ 8 + 1
    ∧ scoreFormula 1 (10 ^ 8 + 1) = scoreFormula 1 (10 ^ 8)
    ∧ ¬ scoreFormula 1 (10 ^ 8 + 1) < scoreFormula 1 (10 ^ 8) := by
  have hcast : ((10 ^ 8 + 1 : ℕ) : ℝ) = 10 ^ 8 + 1 := by push_cast; ring
  have hcast0 : ((10 ^ 8 : ℕ) : ℝ) = (10000 : ℝ) ^ 2 := by push_cast; norm_num
  have h1 : Real.sqrt ((10 ^ 8 : ℕ) : ℝ) = (10000 : ℝ) := by
    rw [hcast0, Real.sqrt_sq (by norm_num)]
  have hlo : (10000 : ℝ) < Real.sqrt ((10 ^ 8 + 1 : ℕ) : ℝ) := by
    rw [Real.lt_sqrt (by norm_num), hcast]
    norm_num
  have hhi : Real.sqrt ((10 ^ 8 + 1 : ℕ) : ℝ) < 20000 := by
    rw [Real.sqrt_lt' (by norm_num), hcast]
    norm_num
  have hspos : (0 : ℝ) < Real.sqrt ((10 ^ 8 + 1 : ℕ) : ℝ) := by linarith
  have e1 : scoreFormula 1 (10 ^ 8 + 1)
      = round4 (1 / Real.sqrt ((10 ^ 8 + 1 : ℕ) : ℝ)) := by
    rw [scoreFormula, if_neg (by omega)]
    norm_num
  have e2 : scoreFormula 1 (10 ^ 8) = round4 (1 / (10000 : ℝ)) := by
    rw [scoreFormula, if_neg (by omega), h1]
    norm_num
  have hb1 : (1 / Real.sqrt ((10 ^ 8 + 1 : ℕ) : ℝ)) * 10000 < 1 := by
    rw [div_mul_eq_mul_div, one_mul, div_lt_one hspos]
    linarith
  have hb2 : (1 / 2 : ℝ) < (1 / Real.sqrt ((10 ^ 8 + 1 : ℕ) : ℝ)) * 10000 := by
    rw [div_mul_eq_mul_div, one_mul]
    have h' : (10000 : ℝ) / 20000
        < 10000 / Real.sqrt ((10 ^ 8 + 1 : ℕ) : ℝ) :=
      div_lt_div_of_pos_left (by norm_num) hspos hhi
    calc (1 / 2 : ℝ) = 10000 / 20000 := by norm_num
      _ < _ := h'
  have r1 : round ((1 / Real.sqrt ((10 ^ 8 + 1 : ℕ) : ℝ)) * 10000) = 1 := by
    rw [round_eq]
    apply Int.floor_eq_iff.mpr
    constructor
    · push_cast
      linarith
    · push_cast
      linarith
  have r2 : round ((1 / (10000 : ℝ)) * 10000) = 1 := by
    norm_num
  have heq : scoreFormula 1 (10 ^ 8 + 1) = scoreFormula 1 (10 ^ 8) := by
    rw [e1, e2, round4, round4, r1, r2]
  exact ⟨by omega, by omega, heq, by rw [heq]; exact lt_irrefl _⟩

/-- Witness for the amended C5 at hit counts 1 ≤ 2 and lengths
100 ≤ 400. -/
theorem scoreFormula_monotone_witness :
    scoreFormula 1 100 ≤ scoreFormula 2 100
    ∧ scoreFormula 2 400 ≤ scoreFormula 2 100
    ∧ (2 : ℝ) / Real.sqrt (400 : ℕ) < (2 : ℝ) / Real.sqrt (100 : ℕ) := by
  refine ⟨scoreFormula_monotone.1 1 2 100 (by omega),
    scoreFormula_monotone.2.1 2 100 400 (by omega) (by omega) (by omega), ?_⟩
  have h := scoreFormula_monotone.2.2 2 100 400 (by omega) (by omega) (by omega)
  simpa using h

/-- C6.  Every failing backend call degrades to exactly one sentinel
record for its page(s): a transport/envelope exception yields an
`API_ERROR` sentinel carrying the exception message, a code fence with no
newline yields the `IndexError` `API_ERROR` sentinel, and a cleaned body
that does not parse as the structured format yields a `PARSE_ERROR`
sentinel carrying the full response text; sentinels carry confidence
`0.0`, the wrappers are total (they return these lists instead of
raising), and a failure of one vision call leaves the records of the
other images unchanged. -/
theorem extraction_failure_sentinels (jp : JsonOracle) (pg : ℕ)
    (msg full cleaned : List Char) (pageNums : List ℕ) :
    (drawingItem jp pg (.exn msg) = [apiErrorRec "drawing" pg msg])
    ∧ (stripFence full = .error msg →
        drawingItem jp pg (.success full) = [apiErrorRec "drawing" pg msg])
    ∧ (stripFence full = .ok cleaned → jp cleaned = none →
        drawingItem jp pg (.success full) = [parseErrorRec "drawing" pg full])
    ∧ (pageNums ≠ [] →
        (extract_from_text jp pageNums (.exn msg)
            = [apiErrorRec "text" (pageNums.headD 0) msg])
        ∧ (stripFence full = .error msg →
            extract_from_text jp pageNums (.success full)
              = [apiErrorRec "text" (pageNums.headD 0) msg])
        ∧ (stripFence full = .ok cleaned → jp cleaned = none →
            extract_from_text jp pageNums (.success full)
              = [parseErrorRec "text" (pageNums.headD 0) full]))
    ∧ ((apiErrorRec "drawing" pg msg).confidence = 0
        ∧ (apiErrorRec "drawing" pg msg).screen_name = "API_ERROR"
        ∧ (apiErrorRec "drawing" pg msg).raw_notes = msg
        ∧ (apiErrorRec "drawing" pg msg).source_page = pg)
    ∧ ((parseErrorRec "text" pg full).confidence = 0
        ∧ (parseErrorRec "text" pg full).screen_name = "PARSE_ERROR"
        ∧ (parseErrorRec "text" pg full).raw_notes = full)
    ∧ (∀ imgs1 imgs2 : List (ℕ × CallResult),
        extract_from_drawing jp (imgs1 ++ imgs2)
          = extract_from_drawing jp imgs1 ++ extract_from_drawing jp imgs2) := by
  refine ⟨rfl, fun hf => ?_, fun hf hp => ?_, fun hne => ⟨?_, fun hf => ?_,
    fun hf hp => ?_⟩, ⟨rfl, rfl, rfl, rfl⟩, ⟨rfl, rfl, rfl⟩,
    fun imgs1 imgs2 => ?_⟩
  · simp [drawingItem, hf]
  · simp [drawingItem, hf, hp]
  · rw [extract_from_text, if_neg hne]
  · rw [extract_from_text, if_neg hne]
    simp [hf]
  · rw [extract_from_text, if_neg hne]
    simp [hf, hp]
  · simp [extract_from_drawing]

/-- Witness for C6: a transport exception, an unparseable body, a
fence-without-newline body, and a text-branch exception, each at concrete
inputs. -/
theorem extraction_failure_sentinels_witness :
    drawingItem (fun _ => none) 4 (.exn "boom".data)
        = [apiErrorRec "drawing" 4 "boom".data]
    ∧ drawingItem (fun _ => none) 4 (.success "not json".data)
        = [parseErrorRec "drawing" 4 "not json".data]
    ∧ drawingItem (fun _ => none) 4 (.success "```x".data)
        = [apiErrorRec "drawing" 4 indexErrMsg]
    ∧ extract_from_text (fun _ => none) [7, 9] (.exn "boom".data)
        = [apiErrorRec "text" 7 "boom".data] := by
  refine ⟨(extraction_failure_sentinels (fun _ => none) 4 "boom".data
      "boom".data "boom".data []).1, ?_, ?_, ?_⟩
  · exact (extraction_failure_sentinels (fun _ => none) 4 "boom".data
      "not json".data "not json".data []).2.2.1 (by rfl) (by rfl)
  · exact (extraction_failure_sentinels (fun _ => none) 4 indexErrMsg
      "```x".data "".data []).2.1 (by rfl)
  · exact ((extraction_failure_sentinels (fun _ => none) 4 "boom".data
      "boom".data "boom".data [7, 9]).2.2.2.1 (by decide)).1

/-- Appending the transient custom category leaves every existing entry
of the bank in place when the key is fresh. -/
lemma dictSet_preserves (b : Bank) (k : String) (v : List String)
    (hk : b.any (fun p => p.1 = k) = false) :
    ∀ ck ∈ b, ck ∈ dictSet b k v := by
  intro ck hck
  rw [dictSet, if_neg (by simp [hk])]
  exact List.mem_append_left _ hck

/-- C9.  A triage request never alters the shared bank: the handler
leaves the stored `KEYWORD_BANK` unchanged, a subsequent request with no
overlays scores against exactly the original bank (which has no
`custom` category) with an empty disabled set, and every category of the
base bank keeps its exact keyword list inside the per-request overlay
bank. -/
theorem triage_request_preserves_bank (custom disabled : Option String) :
    (triageRequestStep KEYWORD_BANK custom disabled).1 = KEYWORD_BANK
    ∧ (triageRequestStep
        ((triageRequestStep KEYWORD_BANK custom disabled).1) none none).2.1
      = KEYWORD_BANK
    ∧ requestDisabled none = []
    ∧ (∀ ck ∈ KEYWORD_BANK, ck.1 ≠ "custom")
    ∧ (∀ ck ∈ KEYWORD_BANK, ck ∈ requestLocalBank KEYWORD_BANK custom) := by
  refine ⟨rfl, rfl, rfl, by decide, fun ck hck => ?_⟩
  cases custom with
  | none => simpa [requestLocalBank] using hck
  | some s =>
    rw [requestLocalBank]
    by_cases h1 : s.data = []
    · simpa [h1] using hck
    · rw [if_neg h1]
      by_cases h2 : commaPieces s = []
      · simpa [h2] using hck
      · rw [if_neg h2]
        exact dictSet_preserves KEYWORD_BANK "custom" (commaPieces s)
          (by decide) ck hck

/-- Witness for C9 with a custom-keyword overlay and a disabled category,
checking the head category of the base bank survives verbatim. -/
theorem triage_request_preserves_bank_witness :
    (triageRequestStep KEYWORD_BANK (some "lobby sign,atrium board")
        (some "specs")).1 = KEYWORD_BANK
    ∧ (triageRequestStep
        ((triageRequestStep KEYWORD_BANK (some "lobby sign,atrium board")
          (some "specs")).1) none none).2.1 = KEYWORD_BANK
    ∧ requestDisabled none = []
    ∧ KEYWORD_BANK.headD ("", []) ∈ requestLocalBank KEYWORD_BANK
        (some "lobby sign,atrium board") := by
  refine ⟨(triage_request_preserves_bank (some "lobby sign,atrium board")
      (some "specs")).1,
    (triage_request_preserves_bank (some "lobby sign,atrium board")
      (some "specs")).2.1,
    (triage_request_preserves_bank (some "lobby sign,atrium board")
      (some "specs")).2.2.1, ?_⟩
  exact (triage_request_preserves_bank (some "lobby sign,atrium board")
    (some "specs")).2.2.2.2 (KEYWORD_BANK.headD ("", [])) (by decide)

/-- Counterexample for C4 as stated: the source's character class `\w`
keeps the underscore, so `normalize_text` leaves `"a_b"` unchanged,
while the claim's words (replace every non-alphanumeric non-whitespace
character with a space) would produce `"a b"`. -/
theorem normalize_text_underscore_counterexample :
    normalize_text "a_b".data = "a_b".data
    ∧ normalizeClaim "a_b".data = "a b".data
    ∧ normalize_text "a_b".data ≠ normalizeClaim "a_b".data := by
  refine ⟨by decide, by decide, by decide⟩

end Triage
